import Mathlib

/-!
Verification of the photo-captioner utility (`src/main.rs`).

The program scans a gallery directory for image files, maintains a CSV
table mapping each image file name to a caption, reconciles a previously
saved table with the images currently on disk, optionally runs an
interactive edit session, and writes the table back out.

The development below is a shallow embedding of the Rust source:
  * `FPath` models `std::path::PathBuf` as a directory part plus a final
    file-name component (the only operations the program uses are
    `file_name`, `parent`-relative `join`, equality of canonical paths,
    and `extension`).
  * Filesystem effects are passed in explicitly: a directory listing is a
    `List DirEntry`, reading a file yields an `Option` of its contents,
    and `canonicalize` is an explicit function `FPath → Option FPath`
    (`none` models a canonicalization failure such as a broken symlink).
  * The `csv` crate (an external collaborator) is modelled by an RFC-4180
    style encoder and a character-level parser state machine with the
    crate's default configuration: delimiter `,`, quote char `"` doubled
    for escaping, fields quoted when they contain a delimiter, quote, CR
    or LF, `\r`/`\n`/`\r\n` accepted as record terminators on read,
    blank lines skipped, first record treated as a header, and records
    whose field count differs from the header's reported as an error
    (`flexible == false`).
  * Rust panics (`unwrap`/`expect`) are modelled as `none` / explicit
    error constructors, so that aborting behaviour is observable.
-/

/-- Model of a filesystem path as used by the program: a directory part
(list of components) and the final file-name component.
`PathBuf::file_name()` is `fname`; `dir.join(name)` builds `⟨dir, name⟩`. -/
structure FPath where
  dir : List String
  fname : String
deriving DecidableEq, Repr

/-- Mirrors `struct CaptionRecord { image_path: PathBuf, caption: String }`. -/
structure CaptionRecord where
  image_path : FPath
  caption : String
deriving DecidableEq, Repr

/-- Mirrors `CaptionRecord::new`. -/
def CaptionRecord.new (image_path : FPath) (caption : String) : CaptionRecord :=
  ⟨image_path, caption⟩

/-- Mirrors `CaptionRecord::empty_caption`. -/
def CaptionRecord.empty_caption (image_path : FPath) : CaptionRecord :=
  CaptionRecord.new image_path ""

/-- Mirrors `CaptionRecord::get_filename`. -/
def CaptionRecord.get_filename (r : CaptionRecord) : String :=
  r.image_path.fname

/-- Mirrors `CaptionRecord::get_label`: `format!("{}: {}", filename, caption)`. -/
def CaptionRecord.get_label (r : CaptionRecord) : String :=
  r.get_filename ++ ": " ++ r.caption

/-- Whether a directory entry is a file or a subdirectory. -/
inductive EntryKind where
  | file
  | dir
deriving DecidableEq, Repr

/-- One entry of `fs::read_dir`: its path and whether it is a directory. -/
structure DirEntry where
  path : FPath
  kind : EntryKind
deriving DecidableEq, Repr

/-- Characters after the last `.` of `cs`, or `none` when `cs` has no dot. -/
def afterLastDot : List Char → Option (List Char)
  | [] => none
  | c :: cs =>
    match afterLastDot cs with
    | some e => some e
    | none => if c = '.' then some cs else none

/-- Rust `Path::extension()` on a file name: the portion after the final
`.`, except that a dot in leading position does not count (so `.bashrc`
has no extension). -/
def extensionOf (fname : String) : Option String :=
  match fname.toList with
  | [] => none
  | _ :: cs =>
    match afterLastDot cs with
    | some e => some (String.mk e)
    | none => none

/-- `let supported_extensions = vec!["jpg", "jpeg", "png"];` -/
def supported_extensions : List String := ["jpg", "jpeg", "png"]

/-- Character-wise lowercasing (model of `str::to_lowercase`, which
agrees with the simple per-character mapping on ASCII extensions). -/
def lowerString (s : String) : String :=
  String.mk (s.toList.map Char.toLower)

/-- The per-entry test of `get_image_files`: the entry's extension,
lowercased, is one of the supported extensions.  Entries with no
extension are skipped. -/
def extSupported (fname : String) : Bool :=
  match extensionOf fname with
  | some ext => supported_extensions.contains (lowerString ext)
  | none => false

/-- Error type for the fallible filesystem operations of the program. -/
inductive IOErr where
  | ioError
deriving DecidableEq, Repr

/-- The accumulation loop of `get_image_files`: push each entry whose
extension is supported. -/
def get_image_files_loop : List DirEntry → List FPath → List FPath
  | [], acc => acc
  | e :: es, acc =>
    if extSupported e.path.fname then get_image_files_loop es (acc ++ [e.path])
    else get_image_files_loop es acc

/-- Mirrors `get_image_files`: `fs::read_dir` is modelled by the
`listing` argument, `none` meaning the directory cannot be listed (the
`?` on `fs::read_dir` then propagates an IO error). -/
def get_image_files (listing : Option (List DirEntry)) : Except IOErr (List FPath) :=
  match listing with
  | none => Except.error IOErr.ioError
  | some es => Except.ok (get_image_files_loop es [])

/-- Mirrors `generate_empty_captions`: the push loop over `image_paths`. -/
def generate_empty_captions : List FPath → List CaptionRecord
  | [] => []
  | p :: ps => CaptionRecord.empty_caption p :: generate_empty_captions ps

-- Basic characterization lemmas --------------------------------------------

theorem get_image_files_loop_eq (es : List DirEntry) (acc : List FPath) :
    get_image_files_loop es acc
      = acc ++ (es.filter (fun e => extSupported e.path.fname)).map DirEntry.path := by
  induction es generalizing acc with
  | nil => simp [get_image_files_loop]
  | cons e es ih =>
    by_cases h : extSupported e.path.fname
    · simp [get_image_files_loop, h, ih]
    · simp [get_image_files_loop, h, ih]

theorem generate_empty_captions_eq (ps : List FPath) :
    generate_empty_captions ps = ps.map CaptionRecord.empty_caption := by
  induction ps with
  | nil => rfl
  | cons p ps ih => simp [generate_empty_captions, ih]

-- CSV codec (model of the `csv` crate with its default configuration) ------

/-- A character that forces a field to be quoted on write: the delimiter,
the quote character, or a record terminator byte. -/
def specialChar (c : Char) : Bool :=
  c = ',' || c = '"' || c = '\n' || c = '\r'

/-- A field must be quoted when it contains a special character. -/
def needsQuote (f : List Char) : Bool := f.any specialChar

/-- Quote-doubling used inside quoted fields. -/
def escapeQuotes : List Char → List Char
  | [] => []
  | c :: cs => if c = '"' then '"' :: '"' :: escapeQuotes cs else c :: escapeQuotes cs

/-- Encode one field, quoting it only when necessary. -/
def encodeField (f : List Char) : List Char :=
  if needsQuote f then '"' :: (escapeQuotes f ++ ['"']) else f

/-- Encode one two-field record followed by the `\n` terminator, as
`wtr.write_record(&[a, b])` emits it. -/
def encodeRow (a b : List Char) : List Char :=
  encodeField a ++ ',' :: (encodeField b ++ ['\n'])

/-- Mirrors `write_caption_csv`: the header record `Image,Caption`
followed by one record per caption, holding the image's bare file name
and the caption text. -/
def write_caption_csv (records : List CaptionRecord) : List Char :=
  encodeRow "Image".toList "Caption".toList
    ++ (records.map (fun r => encodeRow r.image_path.fname.toList r.caption.toList)).flatten

/-- Mode of the CSV reader state machine. -/
inductive CsvMode where
  /-- at the start of a record; newline characters here are blank lines and skipped -/
  | rstart
  /-- immediately after a delimiter: a new, currently empty, field -/
  | fstart
  /-- inside an unquoted field -/
  | unq
  /-- inside a quoted field -/
  | quo
  /-- inside a quoted field, just after a quote character -/
  | quoq
deriving DecidableEq, Repr

/-- State of the CSV reader: completed records (reversed), completed
fields of the current record (reversed), current field (reversed), mode. -/
structure CsvState where
  acc : List (List (List Char))
  fields : List (List Char)
  cur : List Char
  mode : CsvMode
deriving DecidableEq, Repr

/-- One step of the CSV reader on one input character. -/
def csvStep (st : CsvState) (c : Char) : CsvState :=
  match st.mode with
  | CsvMode.rstart =>
    if c = '\n' then st
    else if c = '\r' then st
    else if c = ',' then ⟨st.acc, st.cur.reverse :: st.fields, [], CsvMode.fstart⟩
    else if c = '"' then ⟨st.acc, st.fields, st.cur, CsvMode.quo⟩
    else ⟨st.acc, st.fields, c :: st.cur, CsvMode.unq⟩
  | CsvMode.fstart =>
    if c = '\n' ∨ c = '\r' then
      ⟨(st.cur.reverse :: st.fields).reverse :: st.acc, [], [], CsvMode.rstart⟩
    else if c = ',' then ⟨st.acc, st.cur.reverse :: st.fields, [], CsvMode.fstart⟩
    else if c = '"' then ⟨st.acc, st.fields, st.cur, CsvMode.quo⟩
    else ⟨st.acc, st.fields, c :: st.cur, CsvMode.unq⟩
  | CsvMode.unq =>
    if c = '\n' ∨ c = '\r' then
      ⟨(st.cur.reverse :: st.fields).reverse :: st.acc, [], [], CsvMode.rstart⟩
    else if c = ',' then ⟨st.acc, st.cur.reverse :: st.fields, [], CsvMode.fstart⟩
    else ⟨st.acc, st.fields, c :: st.cur, CsvMode.unq⟩
  | CsvMode.quo =>
    if c = '"' then ⟨st.acc, st.fields, st.cur, CsvMode.quoq⟩
    else ⟨st.acc, st.fields, c :: st.cur, CsvMode.quo⟩
  | CsvMode.quoq =>
    if c = '"' then ⟨st.acc, st.fields, '"' :: st.cur, CsvMode.quo⟩
    else if c = '\n' ∨ c = '\r' then
      ⟨(st.cur.reverse :: st.fields).reverse :: st.acc, [], [], CsvMode.rstart⟩
    else if c = ',' then ⟨st.acc, st.cur.reverse :: st.fields, [], CsvMode.fstart⟩
    else ⟨st.acc, st.fields, c :: st.cur, CsvMode.unq⟩

/-- Flush the reader state at end of input. -/
def csvFinish (st : CsvState) : List (List (List Char)) :=
  match st.mode with
  | CsvMode.rstart => st.acc.reverse
  | _ => ((st.cur.reverse :: st.fields).reverse :: st.acc).reverse

/-- The initial reader state. -/
def csvInit : CsvState := ⟨[], [], [], CsvMode.rstart⟩

/-- Parse a whole CSV text into its list of records (lists of fields). -/
def parseRecords (text : List Char) : List (List (List Char)) :=
  csvFinish (text.foldl csvStep csvInit)

/-- Errors of `read_caption_csv`.  `expectFail` models a Rust panic from
`.expect(...)`; `unequalLengths` models the csv crate's error for a
record whose field count differs from the header's (it carries the index
of the offending data row). -/
inductive CsvError where
  | ioError
  | unequalLengths (row : Nat)
  | expectFail (msg : String)
deriving DecidableEq, Repr

/-- The record loop of `read_caption_csv`: for each data row (checked by
the csv crate against the header's field count), take fields 0 and 1 and
build a `CaptionRecord` whose path resolves the file name against the
CSV file's parent directory. -/
def processRows (image_directory : List String) (hlen : Nat) :
    List (List (List Char)) → Nat → Except CsvError (List CaptionRecord)
  | [], _ => Except.ok []
  | row :: rest, idx =>
    if row.length = hlen then
      match row with
      | [] => Except.error (CsvError.expectFail "badly formatted image filename in csv")
      | [_] => Except.error (CsvError.expectFail "badly formatted caption entry in csv")
      | f0 :: f1 :: _ =>
        (processRows image_directory hlen rest (idx + 1)).map
          (fun rs => CaptionRecord.new ⟨image_directory, String.mk f0⟩ (String.mk f1) :: rs)
    else Except.error (CsvError.unequalLengths idx)

/-- Mirrors `read_caption_csv`: `content` is the CSV file's contents
(`none` when the file cannot be opened), `image_directory` the CSV
path's parent directory against which image file names are resolved.
The csv crate consumes the first record as the header. -/
def read_caption_csv (image_directory : List String) (content : Option (List Char)) :
    Except CsvError (List CaptionRecord) :=
  match content with
  | none => Except.error CsvError.ioError
  | some text =>
    match parseRecords text with
    | [] => Except.ok []
    | header :: rows => processRows image_directory header.length rows 0

-- Round-trip lemmas ---------------------------------------------------------

theorem stringMk_data (s : String) : String.mk s.data = s := by
  cases s
  rfl

theorem stringMk_toList (s : String) : String.mk s.toList = s := by
  cases s
  rfl

theorem foldl_csvStep_unq (cs : List Char) (acc : List (List (List Char)))
    (fs : List (List Char)) (cur : List Char)
    (h : ∀ c ∈ cs, specialChar c = false) :
    cs.foldl csvStep ⟨acc, fs, cur, CsvMode.unq⟩ = ⟨acc, fs, cs.reverse ++ cur, CsvMode.unq⟩ := by
  induction cs generalizing cur with
  | nil => simp
  | cons c cs ih =>
    have hc := h c (by simp)
    simp only [specialChar, Bool.or_eq_false_iff, decide_eq_false_iff_not] at hc
    obtain ⟨⟨⟨hc1, hc2⟩, hc3⟩, hc4⟩ := hc
    rw [List.foldl_cons]
    have hstep : csvStep ⟨acc, fs, cur, CsvMode.unq⟩ c = ⟨acc, fs, c :: cur, CsvMode.unq⟩ := by
      simp [csvStep, hc1, hc3, hc4]
    rw [hstep, ih (c :: cur) (fun x hx => h x (by simp [hx]))]
    simp

theorem foldl_csvStep_quo (a : List Char) (acc : List (List (List Char)))
    (fs : List (List Char)) (cur : List Char) :
    (escapeQuotes a).foldl csvStep ⟨acc, fs, cur, CsvMode.quo⟩
      = ⟨acc, fs, a.reverse ++ cur, CsvMode.quo⟩ := by
  induction a generalizing cur with
  | nil => simp [escapeQuotes]
  | cons c cs ih =>
    by_cases hc : c = '"'
    · subst hc
      rw [escapeQuotes, if_pos rfl, List.foldl_cons, List.foldl_cons]
      have h1 : csvStep ⟨acc, fs, cur, CsvMode.quo⟩ '"' = ⟨acc, fs, cur, CsvMode.quoq⟩ := by
        simp [csvStep]
      have h2 : csvStep ⟨acc, fs, cur, CsvMode.quoq⟩ '"' = ⟨acc, fs, '"' :: cur, CsvMode.quo⟩ := by
        simp [csvStep]
      rw [h1, h2, ih ('"' :: cur)]
      simp
    · rw [escapeQuotes, if_neg hc, List.foldl_cons]
      have h1 : csvStep ⟨acc, fs, cur, CsvMode.quo⟩ c = ⟨acc, fs, c :: cur, CsvMode.quo⟩ := by
        simp [csvStep, hc]
      rw [h1, ih (c :: cur)]
      simp

theorem foldl_csvStep_field_comma (a : List Char) (m : CsvMode)
    (hm : m = CsvMode.rstart ∨ m = CsvMode.fstart)
    (acc : List (List (List Char))) (fs : List (List Char)) (rest : List Char) :
    (encodeField a ++ ',' :: rest).foldl csvStep ⟨acc, fs, [], m⟩
      = rest.foldl csvStep ⟨acc, a :: fs, [], CsvMode.fstart⟩ := by
  by_cases hq : needsQuote a
  · rw [encodeField, if_pos hq]
    have hshape : (('"' :: (escapeQuotes a ++ ['"'])) ++ ',' :: rest)
        = '"' :: (escapeQuotes a ++ ('"' :: ',' :: rest)) := by simp
    rw [hshape, List.foldl_cons]
    have h1 : csvStep ⟨acc, fs, [], m⟩ '"' = ⟨acc, fs, [], CsvMode.quo⟩ := by
      rcases hm with hm | hm <;> subst hm <;> simp [csvStep]
    rw [h1, List.foldl_append, foldl_csvStep_quo, List.foldl_cons]
    have h2 : csvStep ⟨acc, fs, a.reverse ++ [], CsvMode.quo⟩ '"'
        = ⟨acc, fs, a.reverse ++ [], CsvMode.quoq⟩ := by simp [csvStep]
    rw [h2, List.foldl_cons]
    have h3 : csvStep ⟨acc, fs, a.reverse ++ [], CsvMode.quoq⟩ ','
        = ⟨acc, (a.reverse ++ []).reverse :: fs, [], CsvMode.fstart⟩ := by simp [csvStep]
    rw [h3]
    simp
  · rw [encodeField, if_neg hq]
    have hns : ∀ c ∈ a, specialChar c = false := by
      intro c hc
      by_contra hcontra
      exact hq (List.any_eq_true.mpr ⟨c, hc, by revert hcontra; cases specialChar c <;> simp⟩)
    cases a with
    | nil =>
      simp only [List.nil_append, List.foldl_cons]
      have h1 : csvStep ⟨acc, fs, [], m⟩ ',' = ⟨acc, [] :: fs, [], CsvMode.fstart⟩ := by
        rcases hm with hm | hm <;> subst hm <;> simp [csvStep]
      rw [h1]
    | cons c cs =>
      have hc := hns c (by simp)
      simp only [specialChar, Bool.or_eq_false_iff, decide_eq_false_iff_not] at hc
      obtain ⟨⟨⟨hc1, hc2⟩, hc3⟩, hc4⟩ := hc
      simp only [List.cons_append, List.foldl_cons]
      have h1 : csvStep ⟨acc, fs, [], m⟩ c = ⟨acc, fs, [c], CsvMode.unq⟩ := by
        rcases hm with hm | hm <;> subst hm <;> simp [csvStep, hc1, hc2, hc3, hc4]
      rw [h1, List.foldl_append, foldl_csvStep_unq cs acc fs [c]
        (fun x hx => hns x (by simp [hx])), List.foldl_cons]
      have h2 : csvStep ⟨acc, fs, cs.reverse ++ [c], CsvMode.unq⟩ ','
          = ⟨acc, (cs.reverse ++ [c]).reverse :: fs, [], CsvMode.fstart⟩ := by
        simp [csvStep]
      rw [h2]
      simp

theorem foldl_csvStep_field_newline (b : List Char)
    (acc : List (List (List Char))) (fs : List (List Char)) (rest : List Char) :
    (encodeField b ++ '\n' :: rest).foldl csvStep ⟨acc, fs, [], CsvMode.fstart⟩
      = rest.foldl csvStep ⟨(b :: fs).reverse :: acc, [], [], CsvMode.rstart⟩ := by
  by_cases hq : needsQuote b
  · rw [encodeField, if_pos hq]
    have hshape : (('"' :: (escapeQuotes b ++ ['"'])) ++ '\n' :: rest)
        = '"' :: (escapeQuotes b ++ ('"' :: '\n' :: rest)) := by simp
    rw [hshape, List.foldl_cons]
    have h1 : csvStep ⟨acc, fs, [], CsvMode.fstart⟩ '"' = ⟨acc, fs, [], CsvMode.quo⟩ := by
      simp [csvStep]
    rw [h1, List.foldl_append, foldl_csvStep_quo, List.foldl_cons]
    have h2 : csvStep ⟨acc, fs, b.reverse ++ [], CsvMode.quo⟩ '"'
        = ⟨acc, fs, b.reverse ++ [], CsvMode.quoq⟩ := by simp [csvStep]
    rw [h2, List.foldl_cons]
    have h3 : csvStep ⟨acc, fs, b.reverse ++ [], CsvMode.quoq⟩ '\n'
        = ⟨((b.reverse ++ []).reverse :: fs).reverse :: acc, [], [], CsvMode.rstart⟩ := by
      simp [csvStep]
    rw [h3]
    simp
  · rw [encodeField, if_neg hq]
    have hns : ∀ c ∈ b, specialChar c = false := by
      intro c hc
      by_contra hcontra
      exact hq (List.any_eq_true.mpr ⟨c, hc, by revert hcontra; cases specialChar c <;> simp⟩)
    cases b with
    | nil =>
      simp only [List.nil_append, List.foldl_cons]
      have h1 : csvStep ⟨acc, fs, [], CsvMode.fstart⟩ '\n'
          = ⟨(([] : List Char) :: fs).reverse :: acc, [], [], CsvMode.rstart⟩ := by
        simp [csvStep]
      rw [h1]
    | cons c cs =>
      have hc := hns c (by simp)
      simp only [specialChar, Bool.or_eq_false_iff, decide_eq_false_iff_not] at hc
      obtain ⟨⟨⟨hc1, hc2⟩, hc3⟩, hc4⟩ := hc
      simp only [List.cons_append, List.foldl_cons]
      have h1 : csvStep ⟨acc, fs, [], CsvMode.fstart⟩ c = ⟨acc, fs, [c], CsvMode.unq⟩ := by
        simp [csvStep, hc1, hc2, hc3, hc4]
      rw [h1, List.foldl_append, foldl_csvStep_unq cs acc fs [c]
        (fun x hx => hns x (by simp [hx])), List.foldl_cons]
      have h2 : csvStep ⟨acc, fs, cs.reverse ++ [c], CsvMode.unq⟩ '\n'
          = ⟨((cs.reverse ++ [c]).reverse :: fs).reverse :: acc, [], [], CsvMode.rstart⟩ := by
        simp [csvStep]
      rw [h2]
      simp

theorem foldl_csvStep_row (a b : List Char) (acc : List (List (List Char)))
    (rest : List Char) :
    (encodeRow a b ++ rest).foldl csvStep ⟨acc, [], [], CsvMode.rstart⟩
      = rest.foldl csvStep ⟨[a, b] :: acc, [], [], CsvMode.rstart⟩ := by
  have hshape : encodeRow a b ++ rest
      = encodeField a ++ ',' :: (encodeField b ++ '\n' :: rest) := by
    simp [encodeRow]
  rw [hshape, foldl_csvStep_field_comma a CsvMode.rstart (Or.inl rfl),
    foldl_csvStep_field_newline]
  simp

theorem foldl_csvStep_rows (records : List CaptionRecord) (acc : List (List (List Char))) :
    ((records.map
        (fun r => encodeRow r.image_path.fname.toList r.caption.toList)).flatten).foldl
        csvStep ⟨acc, [], [], CsvMode.rstart⟩
      = ⟨(records.map
            (fun r => [r.image_path.fname.toList, r.caption.toList])).reverse ++ acc,
          [], [], CsvMode.rstart⟩ := by
  induction records generalizing acc with
  | nil => simp
  | cons r rs ih =>
    simp only [List.map_cons, List.flatten_cons, List.foldl_append]
    rw [show (encodeRow r.image_path.fname.toList r.caption.toList).foldl csvStep
          ⟨acc, [], [], CsvMode.rstart⟩
        = ⟨[r.image_path.fname.toList, r.caption.toList] :: acc, [], [], CsvMode.rstart⟩ from by
      have := foldl_csvStep_row r.image_path.fname.toList r.caption.toList acc []
      simpa using this]
    rw [ih]
    simp

theorem parseRecords_write (records : List CaptionRecord) :
    parseRecords (write_caption_csv records)
      = ["Image".toList, "Caption".toList]
          :: records.map (fun r => [r.image_path.fname.toList, r.caption.toList]) := by
  rw [parseRecords, write_caption_csv, csvInit, List.foldl_append]
  rw [show (encodeRow "Image".toList "Caption".toList).foldl csvStep
        ⟨[], [], [], CsvMode.rstart⟩
      = ⟨[["Image".toList, "Caption".toList]], [], [], CsvMode.rstart⟩ from by
    simpa using foldl_csvStep_row "Image".toList "Caption".toList [] []]
  rw [foldl_csvStep_rows]
  simp [csvFinish]

theorem processRows_ok (image_directory : List String) (records : List CaptionRecord)
    (idx : Nat) :
    processRows image_directory 2
        (records.map (fun r => [r.image_path.fname.toList, r.caption.toList])) idx
      = Except.ok
          (records.map (fun r => CaptionRecord.new ⟨image_directory, r.image_path.fname⟩
            r.caption)) := by
  induction records generalizing idx with
  | nil => rfl
  | cons r rs ih =>
    have ih2 := ih (idx + 1)
    simp only [String.toList] at ih2
    simp [processRows, ih2, stringMk_data, Except.map]

/-- C3: writing a caption table to a file and reading that file back yields
an equal list of records up to re-resolving each bare file name against the
reading directory; in particular the multiset of `(filename, caption)` pairs
is preserved exactly, including captions containing commas, quote characters,
or newlines (which the CSV quoting protects). -/
theorem write_read_roundtrip (records : List CaptionRecord) (image_directory : List String) :
    read_caption_csv image_directory (some (write_caption_csv records))
        = Except.ok (records.map
            (fun r => CaptionRecord.new ⟨image_directory, r.image_path.fname⟩ r.caption))
    ∧ (read_caption_csv image_directory (some (write_caption_csv records))).map
          (List.map (fun r => (r.get_filename, r.caption)))
        = Except.ok (records.map (fun r => (r.get_filename, r.caption))) := by
  have h : read_caption_csv image_directory (some (write_caption_csv records))
      = Except.ok (records.map
          (fun r => CaptionRecord.new ⟨image_directory, r.image_path.fname⟩ r.caption)) := by
    rw [read_caption_csv, parseRecords_write]
    exact processRows_ok image_directory records 0
  refine ⟨h, ?_⟩
  rw [h]
  simp [Except.map, CaptionRecord.get_filename, CaptionRecord.new]

-- Reconciliation engine (main, csv-exists branch) ---------------------------

/-- Mirrors the membership test of the reconciliation loop:
`captions.iter().find(|record| record.image_path.canonicalize().unwrap()
  .eq(&image_path.canonicalize().unwrap()))`.
`canon` models `PathBuf::canonicalize()`; a `none` result models a failed
canonicalization, on which the program's `unwrap` panics — surfaced here as
an overall `none`. -/
def findMatch (canon : FPath → Option FPath) (captions : List CaptionRecord)
    (p : FPath) : Option Bool :=
  match captions with
  | [] => some false
  | r :: rs =>
    match canon r.image_path with
    | none => none
    | some cr =>
      match canon p with
      | none => none
      | some cp => if cr = cp then some true else findMatch canon rs p

/-- Mirrors the loop that collects `images_with_no_cations`: each
discovered image path absent from the existing table (by canonical-path
comparison) is kept.  A canonicalization panic aborts the whole loop. -/
def images_with_no_captions (canon : FPath → Option FPath)
    (captions : List CaptionRecord) : List FPath → Option (List FPath)
  | [] => some []
  | p :: ps =>
    match findMatch canon captions p with
    | none => none
    | some true => images_with_no_captions canon captions ps
    | some false => (images_with_no_captions canon captions ps).map (fun rest => p :: rest)

/-- The comparator of `captions.sort_by`: ascending by bare file name
(`OsStr::cmp` is byte-lexicographic, which agrees with `String` order on
UTF-8 names). -/
def recordLe (a b : CaptionRecord) : Prop :=
  a.get_filename ≤ b.get_filename

instance : DecidableRel recordLe := fun a b =>
  decidable_of_iff (a.get_filename.toList ≤ b.get_filename.toList)
    String.le_iff_toList_le.symm

instance : IsTotal CaptionRecord recordLe :=
  ⟨fun a b => le_total a.get_filename b.get_filename⟩

instance : IsTrans CaptionRecord recordLe :=
  ⟨fun _ _ _ hab hbc => le_trans hab hbc⟩

/-- Rust's `sort_by` is a stable sort; a stable sort's result is uniquely
determined by the comparator, so insertion sort computes it. -/
def sortRecords (records : List CaptionRecord) : List CaptionRecord :=
  List.insertionSort recordLe records

/-- Mirrors the reconciliation block of `main` (csv-exists branch): keep
the existing records, append an empty-caption record for each discovered
image not already present, and sort the combination by file name.
`none` models the panic of a failed canonicalization `unwrap`. -/
def reconcile (canon : FPath → Option FPath) (captions : List CaptionRecord)
    (image_paths : List FPath) : Option (List CaptionRecord) :=
  (images_with_no_captions canon captions image_paths).map
    (fun news => sortRecords (captions ++ generate_empty_captions news))

/-- Mirrors the `captions` binding of `main`: reconcile against an
existing table when the caption file exists, otherwise generate a fresh
all-empty table straight from discovery (note: the fresh branch does not
sort). -/
def buildTable (canon : FPath → Option FPath) (csvExists : Bool)
    (existing : List CaptionRecord) (image_paths : List FPath) :
    Option (List CaptionRecord) :=
  if csvExists then reconcile canon existing image_paths
  else some (generate_empty_captions image_paths)

theorem findMatch_eq (canon : FPath → Option FPath) (hc : ∀ p, (canon p).isSome)
    (captions : List CaptionRecord) (p : FPath) :
    findMatch canon captions p
      = some (decide (∃ r ∈ captions, canon r.image_path = canon p)) := by
  induction captions with
  | nil => simp [findMatch]
  | cons r rs ih =>
    obtain ⟨cr, hcr⟩ := Option.isSome_iff_exists.mp (hc r.image_path)
    obtain ⟨cp, hcp⟩ := Option.isSome_iff_exists.mp (hc p)
    have hcons : findMatch canon (r :: rs) p
        = if cr = cp then some true else findMatch canon rs p := by
      rw [findMatch, hcr, hcp]
    rw [hcons]
    by_cases h : cr = cp
    · subst h
      rw [if_pos rfl]
      have hex : ∃ x ∈ r :: rs, canon x.image_path = canon p :=
        ⟨r, List.mem_cons_self r rs, by rw [hcr, hcp]⟩
      exact congrArg some (decide_eq_true hex).symm
    · rw [if_neg h, ih]
      have hne : ¬ canon r.image_path = canon p := by
        rw [hcr, hcp]
        simp [h]
      refine congrArg some (decide_eq_decide.mpr ?_)
      constructor
      · rintro ⟨x, hx, hxe⟩
        exact ⟨x, List.mem_cons_of_mem r hx, hxe⟩
      · rintro ⟨x, hx, hxe⟩
        rcases List.mem_cons.mp hx with hx | hx
        · subst hx
          exact absurd hxe hne
        · exact ⟨x, hx, hxe⟩

theorem images_with_no_captions_eq (canon : FPath → Option FPath)
    (hc : ∀ p, (canon p).isSome) (captions : List CaptionRecord) (ps : List FPath) :
    images_with_no_captions canon captions ps
      = some (ps.filter
          (fun p => decide (¬ ∃ r ∈ captions, canon r.image_path = canon p))) := by
  induction ps with
  | nil => rfl
  | cons p ps ih =>
    rw [images_with_no_captions, findMatch_eq canon hc]
    by_cases h : ∃ r ∈ captions, canon r.image_path = canon p
    · rw [show decide (∃ r ∈ captions, canon r.image_path = canon p) = true by simp [h]]
      show images_with_no_captions canon captions ps = _
      rw [ih]
      rw [List.filter_cons_of_neg (by simp [h])]
    · rw [show decide (∃ r ∈ captions, canon r.image_path = canon p) = false by simp [h]]
      show (images_with_no_captions canon captions ps).map (fun rest => p :: rest) = _
      rw [ih]
      rw [List.filter_cons_of_pos (by simp [h])]
      rfl

theorem reconcile_eq (canon : FPath → Option FPath) (hc : ∀ p, (canon p).isSome)
    (captions : List CaptionRecord) (ps : List FPath) :
    reconcile canon captions ps
      = some (sortRecords (captions ++ generate_empty_captions
          (ps.filter
            (fun p => decide (¬ ∃ r ∈ captions, canon r.image_path = canon p))))) := by
  rw [reconcile, images_with_no_captions_eq canon hc]
  rfl

/-- C1: under a canonicalization that succeeds on every path, reconciling
an existing caption table with the discovered image paths keeps every
existing record unchanged (captions preserved), creates an empty-caption
record for each discovered image not present in the existing table (by
canonical-path comparison), and returns exactly the combination of both,
sorted ascending by file name. -/
theorem reconcile_spec (canon : FPath → Option FPath) (captions : List CaptionRecord)
    (image_paths : List FPath) (out : List CaptionRecord)
    (hc : ∀ p, (canon p).isSome)
    (hout : reconcile canon captions image_paths = some out) :
    (∀ r ∈ captions, r ∈ out)
    ∧ (∀ p ∈ image_paths, (¬ ∃ r ∈ captions, canon r.image_path = canon p) →
        CaptionRecord.empty_caption p ∈ out)
    ∧ out.Perm (captions ++
        (image_paths.filter
          (fun p => decide (¬ ∃ r ∈ captions, canon r.image_path = canon p))).map
          CaptionRecord.empty_caption)
    ∧ out.Sorted recordLe := by
  rw [reconcile_eq canon hc] at hout
  have houte : out = sortRecords (captions ++ generate_empty_captions
      (image_paths.filter
        (fun p => decide (¬ ∃ r ∈ captions, canon r.image_path = canon p)))) :=
    (Option.some_inj.mp hout).symm
  have hperm : out.Perm (captions ++ generate_empty_captions
      (image_paths.filter
        (fun p => decide (¬ ∃ r ∈ captions, canon r.image_path = canon p)))) := by
    rw [houte]
    exact List.perm_insertionSort recordLe _
  refine ⟨?_, ?_, ?_, ?_⟩
  · intro r hr
    exact hperm.mem_iff.mpr (List.mem_append_left _ hr)
  · intro p hp hnot
    apply hperm.mem_iff.mpr
    apply List.mem_append_right
    rw [generate_empty_captions_eq]
    exact List.mem_map_of_mem _ (List.mem_filter.mpr ⟨hp, by simpa using hnot⟩)
  · rw [generate_empty_captions_eq] at hperm
    exact hperm
  · rw [houte]
    exact List.sorted_insertionSort recordLe _

/-- Concrete table for the C1/C5 witnesses. -/
def capsW : List CaptionRecord := [CaptionRecord.new ⟨["g"], "a.jpg"⟩ "hi"]

/-- Concrete discovered images for the C1/C5 witnesses. -/
def imgsW : List FPath := [⟨["g"], "a.jpg"⟩, ⟨["g"], "b.jpg"⟩]

/-- Concrete reconciled table for the C1/C5 witnesses. -/
def outW : List CaptionRecord :=
  [CaptionRecord.new ⟨["g"], "a.jpg"⟩ "hi", CaptionRecord.new ⟨["g"], "b.jpg"⟩ ""]

/-- Witness instantiating C1 at a concrete input. -/
theorem reconcile_spec_witness :
    (∀ r ∈ capsW, r ∈ outW)
    ∧ (∀ p ∈ imgsW, (¬ ∃ r ∈ capsW, some r.image_path = some p) →
        CaptionRecord.empty_caption p ∈ outW)
    ∧ outW.Perm (capsW ++
        (imgsW.filter
          (fun p => decide (¬ ∃ r ∈ capsW, some r.image_path = some p))).map
          CaptionRecord.empty_caption)
    ∧ outW.Sorted recordLe :=
  reconcile_spec (fun p => some p) capsW imgsW outW (fun _ => rfl) (by decide)

/-- C5: reconciliation is idempotent: reconciling a table that is itself
the result of a reconciliation, against the same discovered image set,
returns exactly that table again. -/
theorem reconcile_idempotent (canon : FPath → Option FPath)
    (captions : List CaptionRecord) (image_paths : List FPath)
    (out : List CaptionRecord)
    (hc : ∀ p, (canon p).isSome)
    (h1 : reconcile canon captions image_paths = some out) :
    reconcile canon out image_paths = some out := by
  rw [reconcile_eq canon hc] at h1
  have h1e : out = sortRecords (captions ++ generate_empty_captions
      (image_paths.filter
        (fun p => decide (¬ ∃ r ∈ captions, canon r.image_path = canon p)))) :=
    (Option.some_inj.mp h1).symm
  rw [reconcile_eq canon hc]
  have hmem : ∀ p ∈ image_paths, ∃ r ∈ out, canon r.image_path = canon p := by
    intro p hp
    by_cases hex : ∃ r ∈ captions, canon r.image_path = canon p
    · obtain ⟨r, hr, hre⟩ := hex
      refine ⟨r, ?_, hre⟩
      rw [h1e]
      exact ((List.perm_insertionSort recordLe _).mem_iff).mpr (List.mem_append_left _ hr)
    · refine ⟨CaptionRecord.empty_caption p, ?_, rfl⟩
      rw [h1e]
      apply ((List.perm_insertionSort recordLe _).mem_iff).mpr
      apply List.mem_append_right
      rw [generate_empty_captions_eq]
      exact List.mem_map_of_mem _ (List.mem_filter.mpr ⟨hp, by simpa using hex⟩)
  have hfl : image_paths.filter
      (fun p => decide (¬ ∃ r ∈ out, canon r.image_path = canon p)) = [] := by
    rw [List.filter_eq_nil_iff]
    intro p hp
    simpa using hmem p hp
  rw [hfl]
  have hgen : generate_empty_captions [] = [] := rfl
  rw [hgen, List.append_nil]
  have hsorted : out.Sorted recordLe := by
    rw [h1e]
    exact List.sorted_insertionSort recordLe _
  rw [sortRecords, List.Sorted.insertionSort_eq hsorted]

/-- Witness instantiating C5 at a concrete input. -/
theorem reconcile_idempotent_witness :
    reconcile (fun p => some p) outW imgsW = some outW :=
  reconcile_idempotent (fun p => some p) capsW imgsW outW (fun _ => rfl) (by decide)

/-- A canonicalization that fails on the path named `broken.jpg` (a broken
symlink) and succeeds, as the identity, on every other path. -/
def brokenCanon : FPath → Option FPath :=
  fun p => if p.fname = "broken.jpg" then none else some p

/-- C8 (shows the code's actual behaviour): when canonicalization fails for
one discovered image, the `unwrap` inside the reconciliation scan panics
(modelled as `none`): the whole merge aborts, and no per-image recoverable
error is reported — the other pending image `b.jpg` is not merged either. -/
theorem reconcile_aborts_on_broken_canon :
    reconcile brokenCanon [CaptionRecord.new ⟨["g"], "a.jpg"⟩ "hi"]
      [⟨["g"], "b.jpg"⟩, ⟨["g"], "broken.jpg"⟩] = none := by
  rfl

/-- C10: `generate_empty_captions` returns a list of the same length as
its input, in the same order (the i-th record's `image_path` is the i-th
input path), and every produced caption is the empty string. -/
theorem generate_empty_captions_spec (ps : List FPath) :
    (generate_empty_captions ps).length = ps.length
    ∧ (∀ i : Nat, ((generate_empty_captions ps)[i]?).map CaptionRecord.image_path = ps[i]?)
    ∧ (∀ r ∈ generate_empty_captions ps, r.caption = "") := by
  refine ⟨?_, ?_, ?_⟩ <;> rw [generate_empty_captions_eq]
  · simp
  · intro i
    rw [List.getElem?_map]
    cases ps[i]? <;> rfl
  · intro r hr
    obtain ⟨p, _, rfl⟩ := List.mem_map.mp hr
    rfl

/-- Witness instantiating C10 at a concrete input. -/
theorem generate_empty_captions_spec_witness :
    (generate_empty_captions [⟨["g"], "a.jpg"⟩]).length
        = ([⟨["g"], "a.jpg"⟩] : List FPath).length
    ∧ (∀ i : Nat, ((generate_empty_captions [⟨["g"], "a.jpg"⟩])[i]?).map CaptionRecord.image_path
        = ([⟨["g"], "a.jpg"⟩] : List FPath)[i]?)
    ∧ (∀ r ∈ generate_empty_captions [⟨["g"], "a.jpg"⟩], r.caption = "") :=
  generate_empty_captions_spec [⟨["g"], "a.jpg"⟩]

/-- C6 counterexample: a directory entry that is itself a directory, named
`sub.jpg`, is returned by image discovery — the extension test is the only
filter, so directories are not skipped, contradicting the claim. -/
theorem get_image_files_includes_directory :
    get_image_files (some [⟨⟨["g"], "sub.jpg"⟩, EntryKind.dir⟩])
      = Except.ok [⟨["g"], "sub.jpg"⟩] := by
  rfl

/-- C6 amended: discovery returns exactly the entries (files or
directories alike) whose extension is, case-insensitively, one of
jpg/jpeg/png, in directory-listing order; entries with another or no
extension are skipped silently, and an unlistable directory is an IO
error. -/
theorem get_image_files_spec :
    (get_image_files none = Except.error IOErr.ioError)
    ∧ ∀ es, get_image_files (some es)
        = Except.ok ((es.filter (fun e => extSupported e.path.fname)).map DirEntry.path) := by
  refine ⟨rfl, ?_⟩
  intro es
  rw [get_image_files]
  rw [get_image_files_loop_eq]
  rfl

/-- C2 counterexample: when the caption file does not exist and discovery
lists `b.png` before `a.jpg`, the fresh table is produced in discovery
order — `[b.png, a.jpg]` — and is not sorted ascending by file name. -/
theorem fresh_table_not_sorted :
    buildTable (fun p => some p) false [] [⟨["g"], "b.png"⟩, ⟨["g"], "a.jpg"⟩]
        = some [CaptionRecord.empty_caption ⟨["g"], "b.png"⟩,
            CaptionRecord.empty_caption ⟨["g"], "a.jpg"⟩]
    ∧ ¬ List.Sorted recordLe [CaptionRecord.empty_caption ⟨["g"], "b.png"⟩,
            CaptionRecord.empty_caption ⟨["g"], "a.jpg"⟩] := by
  constructor
  · rfl
  · decide

/-- C2 amended: when the caption table file does not already exist, the
program produces a fresh table directly from the discovered images, with
an empty caption for every image, in discovery (directory-listing) order;
this fresh branch performs no sort. -/
theorem fresh_table_spec (canon : FPath → Option FPath) (existing : List CaptionRecord)
    (image_paths : List FPath) :
    buildTable canon false existing image_paths = some (generate_empty_captions image_paths)
    ∧ (generate_empty_captions image_paths).map CaptionRecord.image_path = image_paths
    ∧ ∀ r ∈ generate_empty_captions image_paths, r.caption = "" := by
  refine ⟨rfl, ?_, ?_⟩
  · rw [generate_empty_captions_eq, List.map_map]
    exact List.map_id _
  · intro r hr
    rw [generate_empty_captions_eq] at hr
    obtain ⟨p, _, rfl⟩ := List.mem_map.mp hr
    rfl

/-- Witness instantiating the amended C2 at a concrete input. -/
theorem fresh_table_spec_witness :
    buildTable (fun p => some p) false [] [⟨["g"], "b.png"⟩]
        = some (generate_empty_captions [⟨["g"], "b.png"⟩])
    ∧ (generate_empty_captions [⟨["g"], "b.png"⟩]).map CaptionRecord.image_path
        = [⟨["g"], "b.png"⟩]
    ∧ ∀ r ∈ generate_empty_captions [⟨["g"], "b.png"⟩], r.caption = "" :=
  fresh_table_spec (fun p => some p) [] [⟨["g"], "b.png"⟩]

theorem processRows_short_row (image_directory : List String) (hlen : Nat)
    (rows : List (List (List Char))) (h2 : 2 ≤ hlen) :
    ∀ idx, (∃ row ∈ rows, row.length < 2) →
      ∃ i, processRows image_directory hlen rows idx
        = Except.error (CsvError.unequalLengths i) := by
  induction rows with
  | nil =>
    intro idx hbad
    simp at hbad
  | cons row rest ih =>
    intro idx hbad
    by_cases hlen_eq : row.length = hlen
    · have hbad2 : ∃ r ∈ rest, r.length < 2 := by
        rcases hbad with ⟨r, hr, hrl⟩
        rcases List.mem_cons.mp hr with hre | hre
        · subst hre
          omega
        · exact ⟨r, hre, hrl⟩
      obtain ⟨i, hi⟩ := ih (idx + 1) hbad2
      refine ⟨i, ?_⟩
      rcases row with _ | ⟨f0, _ | ⟨f1, frest⟩⟩
      · exfalso
        simp at hlen_eq
        omega
      · exfalso
        simp at hlen_eq
        omega
      · rw [processRows, if_pos hlen_eq]
        rw [hi]
        rfl
    · refine ⟨idx, ?_⟩
      rcases row with _ | ⟨f0, _ | ⟨f1, frest⟩⟩ <;> rw [processRows, if_neg hlen_eq]

theorem processRows_no_expect (image_directory : List String) (hlen : Nat)
    (rows : List (List (List Char))) (h2 : 2 ≤ hlen) :
    ∀ idx msg, processRows image_directory hlen rows idx
      ≠ Except.error (CsvError.expectFail msg) := by
  induction rows with
  | nil =>
    intro idx msg
    simp [processRows]
  | cons row rest ih =>
    intro idx msg
    by_cases hlen_eq : row.length = hlen
    · rcases row with _ | ⟨f0, _ | ⟨f1, frest⟩⟩
      · exfalso
        simp at hlen_eq
        omega
      · exfalso
        simp at hlen_eq
        omega
      · rw [processRows, if_pos hlen_eq]
        cases hres : processRows image_directory hlen rest (idx + 1) with
        | error e =>
          intro hcontra
          simp [Except.map] at hcontra
          exact ih (idx + 1) msg (by rw [hres, hcontra])
        | ok v =>
          simp [Except.map]
    · rcases row with _ | ⟨f0, _ | ⟨f1, frest⟩⟩ <;> rw [processRows, if_neg hlen_eq] <;> simp

/-- C7 counterexample: for the caption file `"Image\nfoo\n"` — whose
header row has a single field and whose data row `foo` has one field,
fewer than two — reading fails with the opaque `expect` panic
`badly formatted caption entry in csv` rather than with a row-reporting
format error. -/
theorem read_caption_csv_short_header :
    read_caption_csv ["g"] (some ("Image\nfoo\n".toList))
      = Except.error (CsvError.expectFail "badly formatted caption entry in csv") := by
  rfl

/-- C7 amended: reading fails with an IO error exactly when the file
cannot be opened; and provided the header row has at least two fields (as
every table written by this program does), a data row with fewer than two
fields makes reading fail with a row-reporting `unequalLengths` format
error (the csv crate's field-count check), and reading never reaches an
opaque `expect` panic.  When the header itself has fewer than two fields
the code can instead panic, as the counterexample shows. -/
theorem read_caption_csv_errors (image_directory : List String) :
    (read_caption_csv image_directory none = Except.error CsvError.ioError)
    ∧ ∀ text header rows, parseRecords text = header :: rows →
        2 ≤ header.length →
        ((∃ row ∈ rows, row.length < 2) →
          ∃ i, read_caption_csv image_directory (some text)
            = Except.error (CsvError.unequalLengths i))
        ∧ ∀ msg, read_caption_csv image_directory (some text)
            ≠ Except.error (CsvError.expectFail msg) := by
  refine ⟨rfl, ?_⟩
  intro text header rows hparse h2
  have hread : read_caption_csv image_directory (some text)
      = processRows image_directory header.length rows 0 := by
    rw [read_caption_csv, hparse]
  constructor
  · intro hbad
    obtain ⟨i, hi⟩ := processRows_short_row image_directory header.length rows h2 0 hbad
    exact ⟨i, by rw [hread, hi]⟩
  · intro msg
    rw [hread]
    exact processRows_no_expect image_directory header.length rows h2 0 msg

/-- Witness instantiating the amended C7 on a concrete malformed file
(header `Image,Caption`, single-field data row `only`). -/
theorem read_caption_csv_errors_witness :
    (∃ i, read_caption_csv ["g"] (some ("Image,Caption\nonly\n".toList))
        = Except.error (CsvError.unequalLengths i))
    ∧ ∀ msg, read_caption_csv ["g"] (some ("Image,Caption\nonly\n".toList))
        ≠ Except.error (CsvError.expectFail msg) := by
  have h := (read_caption_csv_errors ["g"]).2 ("Image,Caption\nonly\n".toList)
    ["Image".toList, "Caption".toList] [["only".toList]] (by rfl) (by decide)
  exact ⟨h.1 ⟨["only".toList], by simp, by decide⟩, h.2⟩

-- Edit session controller ---------------------------------------------------

/-- State of the interactive edit session: the arena of records (the
`Rc<RefCell<CaptionRecord>>` cells, in creation order) and the select
view's items (item i displays a label and references record i). -/
structure SessionState where
  records : List CaptionRecord
  items : List String
deriving DecidableEq, Repr

/-- Mirrors `submit_callback`: write the edited text into the selected
record's `caption`, then refresh that item's label by removing the item
and re-inserting it at the same index (with the selection restored). -/
def submit_callback (st : SessionState) (sel : Nat) (newText : String) : SessionState :=
  match st.records[sel]? with
  | none => st
  | some r =>
    { records := st.records.set sel { r with caption := newText },
      items := (st.items.eraseIdx sel).insertIdx sel
        (CaptionRecord.get_label { r with caption := newText }) }

/-- One user interaction during the edit session: selecting item `sel`
then submitting new caption text, or selecting then cancelling. -/
inductive EditEvent where
  | submit (sel : Nat) (newText : String)
  | cancel (sel : Nat)
deriving DecidableEq, Repr

/-- The selected index of an event. -/
def EditEvent.sel : EditEvent → Nat
  | EditEvent.submit s _ => s
  | EditEvent.cancel s => s

/-- Apply one event: submitting commits through `submit_callback`;
cancelling only pops the dialog layer, leaving all state untouched. -/
def applyEvent (st : SessionState) : EditEvent → SessionState
  | EditEvent.submit sel t => submit_callback st sel t
  | EditEvent.cancel _ => st

/-- Run the session event loop over a list of events. -/
def runSession (st : SessionState) (evs : List EditEvent) : SessionState :=
  evs.foldl applyEvent st

/-- Mirrors `edit_captions`: without `--edit` the captions pass through
unchanged; otherwise the session runs and the final arena contents are
returned, in their original order. -/
def edit_captions (edit : Bool) (evs : List EditEvent) (captions : List CaptionRecord) :
    List CaptionRecord :=
  if edit then (runSession ⟨captions, captions.map CaptionRecord.get_label⟩ evs).records
  else captions

theorem applyEvent_records_length (st : SessionState) (e : EditEvent) :
    (applyEvent st e).records.length = st.records.length := by
  cases e with
  | cancel sel => rfl
  | submit sel t =>
    show (submit_callback st sel t).records.length = st.records.length
    rw [submit_callback]
    cases st.records[sel]? with
    | none => rfl
    | some r => simp

theorem applyEvent_image_path (st : SessionState) (e : EditEvent) (i : Nat) :
    ((applyEvent st e).records[i]?).map CaptionRecord.image_path
      = (st.records[i]?).map CaptionRecord.image_path := by
  cases e with
  | cancel sel => rfl
  | submit sel t =>
    show ((submit_callback st sel t).records[i]?).map _ = _
    rw [submit_callback]
    cases hr : st.records[sel]? with
    | none => rfl
    | some r =>
      by_cases hij : sel = i
      · subst hij
        have hlt : sel < st.records.length := by
          by_contra hcontra
          rw [List.getElem?_eq_none (by omega)] at hr
          exact Option.noConfusion hr
        simp [List.getElem?_set_self hlt, hr]
      · simp [List.getElem?_set_ne hij]

theorem applyEvent_untouched (st : SessionState) (e : EditEvent) (i : Nat)
    (h : e.sel ≠ i) :
    (applyEvent st e).records[i]? = st.records[i]? := by
  cases e with
  | cancel sel => rfl
  | submit sel t =>
    show (submit_callback st sel t).records[i]? = _
    rw [submit_callback]
    cases hr : st.records[sel]? with
    | none => rfl
    | some r =>
      have hij : sel ≠ i := h
      simp [List.getElem?_set_ne hij]

theorem eraseIdx_insertIdx_eq_set (l : List String) (i : Nat) (a : String)
    (h : i < l.length) :
    (l.eraseIdx i).insertIdx i a = l.set i a := by
  induction l generalizing i with
  | nil => simp at h
  | cons b t ih =>
    cases i with
    | zero => simp [List.insertIdx_zero]
    | succ n =>
      rw [List.eraseIdx_cons_succ, List.insertIdx_succ_cons, List.set_cons_succ]
      exact congrArg (List.cons b) (ih n (by simpa using h))

/-- C4: editing-session invariants.  Over any sequence of edit events the
number of records is unchanged, the identity (image path) at every index
is unchanged, and a record whose index is never selected is left exactly
as it was.  A single committed edit rewrites only the selected record,
replacing just its caption — every other record is untouched — and only
the selected item's label is refreshed.  Cancelling performs no mutation
at all. -/
theorem edit_session_spec (st : SessionState) (evs : List EditEvent) :
    (runSession st evs).records.length = st.records.length
    ∧ (∀ i : Nat, ((runSession st evs).records[i]?).map CaptionRecord.image_path
        = (st.records[i]?).map CaptionRecord.image_path)
    ∧ (∀ i : Nat, (∀ e ∈ evs, EditEvent.sel e ≠ i) →
        (runSession st evs).records[i]? = st.records[i]?)
    ∧ (∀ (sel : Nat) (t : String) (r : CaptionRecord), st.records[sel]? = some r →
        (applyEvent st (EditEvent.submit sel t)).records
            = st.records.set sel { r with caption := t }
        ∧ (∀ j : Nat, j ≠ sel →
            (applyEvent st (EditEvent.submit sel t)).records[j]? = st.records[j]?)
        ∧ (sel < st.items.length →
            (applyEvent st (EditEvent.submit sel t)).items
              = st.items.set sel (CaptionRecord.get_label { r with caption := t })))
    ∧ (∀ sel, applyEvent st (EditEvent.cancel sel) = st) := by
  refine ⟨?_, ?_, ?_, ?_, fun sel => rfl⟩
  · induction evs generalizing st with
    | nil => rfl
    | cons e es ih =>
      rw [runSession, List.foldl_cons]
      exact (ih (applyEvent st e)).trans (applyEvent_records_length st e)
  · induction evs generalizing st with
    | nil => intro i; rfl
    | cons e es ih =>
      intro i
      rw [runSession, List.foldl_cons]
      exact (ih (applyEvent st e) i).trans (applyEvent_image_path st e i)
  · induction evs generalizing st with
    | nil => intro i _; rfl
    | cons e es ih =>
      intro i hne
      rw [runSession, List.foldl_cons]
      have h1 := ih (applyEvent st e) i (fun x hx => hne x (List.mem_cons_of_mem e hx))
      exact h1.trans (applyEvent_untouched st e i (hne e (List.mem_cons_self e es)))
  · intro sel t r hr
    have hlt : sel < st.records.length := by
      by_contra hcontra
      rw [List.getElem?_eq_none (by omega)] at hr
      exact Option.noConfusion hr
    refine ⟨?_, ?_, ?_⟩
    · show (submit_callback st sel t).records = _
      rw [submit_callback, hr]
    · intro j hj
      exact applyEvent_untouched st (EditEvent.submit sel t) j (fun hcontra => hj hcontra.symm)
    · intro hsel
      show (submit_callback st sel t).items = _
      rw [submit_callback, hr]
      exact eraseIdx_insertIdx_eq_set st.items sel _ hsel

/-- Concrete session state for the C4 witness. -/
def sessW : SessionState :=
  ⟨[CaptionRecord.new ⟨["g"], "a.jpg"⟩ "hi", CaptionRecord.new ⟨["g"], "b.jpg"⟩ ""],
    ["a.jpg: hi", "b.jpg: "]⟩

/-- Witness instantiating C4 at a concrete state and event sequence. -/
theorem edit_session_spec_witness :
    (runSession sessW [EditEvent.submit 0 "new"]).records.length = sessW.records.length
    ∧ (applyEvent sessW (EditEvent.submit 0 "new")).records
        = sessW.records.set 0 (CaptionRecord.new ⟨["g"], "a.jpg"⟩ "new")
    ∧ (applyEvent sessW (EditEvent.submit 0 "new")).records[1]? = sessW.records[1]?
    ∧ (applyEvent sessW (EditEvent.submit 0 "new")).items
        = sessW.items.set 0 (CaptionRecord.get_label (CaptionRecord.new ⟨["g"], "a.jpg"⟩ "new"))
    ∧ applyEvent sessW (EditEvent.cancel 0) = sessW := by
  have h := edit_session_spec sessW [EditEvent.submit 0 "new"]
  have hs := h.2.2.2.1 0 "new" (CaptionRecord.new ⟨["g"], "a.jpg"⟩ "hi") (by rfl)
  exact ⟨h.1, hs.1, hs.2.1 1 (by decide), hs.2.2 (by decide), h.2.2.2.2 0⟩

-- Orchestrator (main) -------------------------------------------------------

/-- Inputs of one program run: resolved CLI options plus the filesystem
and session effects, passed in explicitly. -/
structure RunEnv where
  listing : Option (List DirEntry)
  galleryDir : List String
  output_type : String
  csvExists : Bool
  csvContent : Option (List Char)
  canon : FPath → Option FPath
  edit : Bool
  events : List EditEvent

/-- Observable outcome of a run: whether the caption file was read, what
(if anything) was written to it, the reported non-fatal error, and the
panic message when the run aborted. -/
structure RunTrace where
  readCaptionFile : Bool
  writtenRecords : Option (List CaptionRecord)
  reportedError : Option String
  panicMsg : Option String
deriving Repr

/-- Mirrors `main` after option resolution: list the gallery directory
(a failure panics before anything else), then only inside the `"csv"`
branch read, reconcile, optionally edit, and write the caption table;
any other output type only prints `unsupported output type`. -/
def main_run (env : RunEnv) : RunTrace :=
  match get_image_files env.listing with
  | Except.error _ =>
    ⟨false, none, none, some "Error: unable to read image files from gallery directory"⟩
  | Except.ok image_paths =>
    if env.output_type = "csv" then
      if env.csvExists then
        match read_caption_csv env.galleryDir env.csvContent with
        | Except.error _ => ⟨true, none, none, some "unable to read captions csv"⟩
        | Except.ok existing =>
          match buildTable env.canon true existing image_paths with
          | none => ⟨true, none, none, some "called unwrap on a None value"⟩
          | some table =>
            ⟨true, some (edit_captions env.edit env.events table), none, none⟩
      else
        match buildTable env.canon false [] image_paths with
        | none => ⟨false, none, none, some "called unwrap on a None value"⟩
        | some table =>
          ⟨false, some (edit_captions env.edit env.events table), none, none⟩
    else ⟨false, none, some ("Error: unsupported output type " ++ env.output_type), none⟩

/-- C9: for every output-type value other than `"csv"` (with the gallery
directory listable — `main` lists it, and panics, before the output-type
switch), the run only reports the non-fatal `unsupported output type`
error and aborts: the caption file is not read and nothing is written or
replaced. -/
theorem unsupported_output_type_no_io (env : RunEnv) (es : List DirEntry)
    (hl : env.listing = some es) (ht : env.output_type ≠ "csv") :
    main_run env
      = ⟨false, none, some ("Error: unsupported output type " ++ env.output_type), none⟩ := by
  rw [main_run, hl, get_image_files]
  simp only [if_neg ht]

/-- Concrete run environment for the C9 witness: output type `xml`. -/
def envW : RunEnv :=
  { listing := some [⟨⟨["g"], "a.jpg"⟩, EntryKind.file⟩],
    galleryDir := ["g"],
    output_type := "xml",
    csvExists := false,
    csvContent := none,
    canon := fun p => some p,
    edit := false,
    events := [] }

/-- Witness instantiating C9 at a concrete environment. -/
theorem unsupported_output_type_no_io_witness :
    main_run envW
      = ⟨false, none, some ("Error: unsupported output type " ++ envW.output_type), none⟩ :=
  unsupported_output_type_no_io envW [⟨⟨["g"], "a.jpg"⟩, EntryKind.file⟩] rfl (by decide)
